import Mathlib

/-!
Shallow embedding of the DLA dendrite generator from
`src/axiart-core/src/dendrite.rs` (crate `axiart-core`).

Modelling conventions:
* Rust `f64` values are modelled by `ℚ` (exact arithmetic; the claims under
  study are about control flow, indices and order comparisons, not about
  floating-point rounding).
* The Rust `HashMap<(i32, i32), Vec<usize>>` of `SpatialGrid` is modelled by a
  total function `ℤ × ℤ → List ℕ` defaulting to `[]`: the source only ever
  reads the map through `get` (never iterates over it), and
  `entry(..).or_insert_with(Vec::new).push(idx)` always leaves a non-empty
  vector behind, so an absent key and an empty list are observationally
  identical for every operation the source performs.
* `ChaCha8Rng` is modelled by a pair of fixed value streams (`RandomStream`)
  plus a cursor `k : ℕ` that each draw advances by one, preserving the
  strictly sequential draw order of the source.  `rng.gen::<f64>()` (a draw
  in `[0,1)`) reads `f k`; `rng.gen_range(0..4)` reads `e k`.
* `angle.cos()` / `angle.sin()` of the walk, where `angle = u * 2π` for the
  unit draw `u`, are modelled by abstract functions `Trig.cos`, `Trig.sin`
  applied directly to `u`; no claim depends on trigonometric identities.
* `dist_sq.sqrt() < attraction_distance` (with `dist_sq` a sum of squares,
  hence non-negative) is modelled without square roots by
  `sqrt_lt dist_sq a = (0 < a ∧ dist_sq < a * a)`; `sqrt_lt_iff_real_sqrt`
  below proves this equivalent to `Real.sqrt dist_sq < a`.
* `points[idx]` (which panics when out of bounds) is modelled by
  `List.getD _ idx (0, 0)`; the grid-index invariant proved below shows the
  default is never consulted during a run.
-/

namespace Axiart

/-- Branching style for dendrite growth (`enum BranchingStyle`). -/
inductive BranchingStyle where
  | Radial
  | Vertical
  | Horizontal
  deriving DecidableEq, Repr

/-- Model of Rust's `str::to_lowercase()`: the character-wise lowercase map.
(The two agree on ASCII input, which is all the recognised style names use;
Lean's own `String.toLower` is the same map but is defined through
position-based recursion that the kernel cannot evaluate.) -/
def lowercase (s : String) : String := String.mk (s.data.map Char.toLower)

/-- `BranchingStyle::from_str`: lowercases the input and matches it against
the three style names, any other string is a `ValueError`. -/
def BranchingStyle.from_str (s : String) : Except String BranchingStyle :=
  let t := lowercase s
  if t = "radial" then Except.ok BranchingStyle.Radial
  else if t = "vertical" then Except.ok BranchingStyle.Vertical
  else if t = "horizontal" then Except.ok BranchingStyle.Horizontal
  else Except.error "Invalid branching style. Use 'radial', 'vertical', or 'horizontal'"

/-- `struct SpatialGrid`: cell size plus the cell → point-index map
(total-function model of the `HashMap`, see module docstring). -/
structure SpatialGrid where
  cell_size : ℚ
  grid : ℤ × ℤ → List ℕ

/-- `SpatialGrid::new`. -/
def SpatialGrid.new (cell_size : ℚ) : SpatialGrid :=
  { cell_size := cell_size, grid := fun _ => [] }

/-- `SpatialGrid::get_cell`: world coordinates to grid cell,
`((x / cell_size).floor(), (y / cell_size).floor())`. -/
def SpatialGrid.get_cell (sg : SpatialGrid) (x y : ℚ) : ℤ × ℤ :=
  (⌊x / sg.cell_size⌋, ⌊y / sg.cell_size⌋)

/-- `SpatialGrid::insert`: append `idx` to the bucket of the point's cell. -/
def SpatialGrid.insert (sg : SpatialGrid) (x y : ℚ) (idx : ℕ) : SpatialGrid :=
  let cell := sg.get_cell x y
  { sg with grid := fun c => if c = cell then sg.grid c ++ [idx] else sg.grid c }

/-- The nine cell offsets scanned by `find_nearest`, in source order
(`for dx in -1..=1 { for dy in -1..=1 { ... } }`). -/
def neighborOffsets : List (ℤ × ℤ) :=
  [(-1, -1), (-1, 0), (-1, 1), (0, -1), (0, 0), (0, 1), (1, -1), (1, 0), (1, 1)]

/-- Squared Euclidean distance `(px - x)*(px - x) + (py - y)*(py - y)`. -/
def distSq (p : ℚ × ℚ) (x y : ℚ) : ℚ :=
  (p.1 - x) * (p.1 - x) + (p.2 - y) * (p.2 - y)

/-- One `match best { ... }` step of `find_nearest`: keep the strictly closer
candidate, ties keep the incumbent. -/
def betterOf (b : Option (ℕ × ℚ)) (idx : ℕ) (dsq : ℚ) : Option (ℕ × ℚ) :=
  match b with
  | none => some (idx, dsq)
  | some (i, bd) => if dsq < bd then some (idx, dsq) else some (i, bd)

/-- The inner `for &idx in indices` loop of `find_nearest` over one cell. -/
def scanCell (points : List (ℚ × ℚ)) (x y : ℚ) (b : Option (ℕ × ℚ))
    (indices : List ℕ) : Option (ℕ × ℚ) :=
  indices.foldl (fun b idx => betterOf b idx (distSq (points.getD idx (0, 0)) x y)) b

/-- `SpatialGrid::find_nearest`: scan the 3×3 block of cells around the query
cell, tracking the index of minimal squared distance. -/
def SpatialGrid.find_nearest (sg : SpatialGrid) (x y : ℚ)
    (points : List (ℚ × ℚ)) : Option (ℕ × ℚ) :=
  let c := sg.get_cell x y
  neighborOffsets.foldl
    (fun b off => scanCell points x y b (sg.grid (c.1 + off.1, c.2 + off.2))) none

/-- Model of the seeded `ChaCha8Rng`: two fixed value streams.  `f k` models
the `k`-th random draw when consumed as `gen::<f64>()` (a value in `[0,1)`),
`e k` models it when consumed as `gen_range(0..4)`; the cursor `k` advances
by one per draw, preserving the source's strictly sequential draw order. -/
structure RandomStream where
  f : ℕ → ℚ
  e : ℕ → Fin 4

/-- Abstract model of `angle.cos()` and `angle.sin()` where `angle = u * 2π`
for a unit draw `u`: `cos u` stands for `Real.cos (2 * π * u)`, likewise
`sin`.  No claim depends on trigonometric identities, only on how the values
flow into the walk step. -/
structure Trig where
  cos : ℚ → ℚ
  sin : ℚ → ℚ

/-- `struct DendriteGenerator` (configuration fields; the `rng` field of the
Rust struct is modelled separately by a `RandomStream` plus cursor, passed to
`generate` explicitly). -/
structure DendriteGenerator where
  width : ℚ
  height : ℚ
  num_particles : ℕ
  attraction_distance : ℚ
  min_move_distance : ℚ
  branching_style : BranchingStyle
  seed_points : List (ℚ × ℚ)

/-- `DendriteGenerator::new`: parses the branching-style string (the only
fallible step), derives default seed points from the style when none are
supplied, and assembles the generator.  No numeric parameter is validated. -/
def DendriteGenerator.new (width height : ℚ) (num_particles : ℕ)
    (attraction_distance min_move_distance : ℚ)
    (seed_points : Option (List (ℚ × ℚ))) (branching_style : String) :
    Except String DendriteGenerator :=
  match BranchingStyle.from_str branching_style with
  | Except.error e => Except.error e
  | Except.ok style =>
    let seeds :=
      match seed_points with
      | some points => points
      | none =>
        match style with
        | BranchingStyle.Vertical => [(width / 2, height)]
        | BranchingStyle.Horizontal => [(0, height / 2)]
        | BranchingStyle.Radial => [(width / 2, height / 2)]
    Except.ok
      { width := width, height := height, num_particles := num_particles,
        attraction_distance := attraction_distance,
        min_move_distance := min_move_distance,
        branching_style := style, seed_points := seeds }

/-- `DendriteGenerator::get_random_particle_position`: spawn position on the
style's spawn locus; returns the position and the advanced RNG cursor. -/
def get_random_particle_position (R : RandomStream) (g : DendriteGenerator)
    (k : ℕ) : (ℚ × ℚ) × ℕ :=
  match g.branching_style with
  | BranchingStyle.Vertical => ((R.f k * g.width, 0), k + 1)
  | BranchingStyle.Horizontal => ((g.width, R.f k * g.height), k + 1)
  | BranchingStyle.Radial =>
    let edge := (R.e k).val
    let k1 := k + 1
    match edge with
    | 0 => ((R.f k1 * g.width, 0), k1 + 1)
    | 1 => ((g.width, R.f k1 * g.height), k1 + 1)
    | 2 => ((R.f k1 * g.width, g.height), k1 + 1)
    | _ => ((0, R.f k1 * g.height), k1 + 1)

/-- `f64::clamp(lo, hi)` (for `lo ≤ hi`; the Rust function panics otherwise). -/
def qclamp (v lo hi : ℚ) : ℚ :=
  if v < lo then lo else if v > hi then hi else v

/-- The walk target of `DendriteGenerator::random_walk` before the final
clamp: step by `min_move_distance` in the drawn direction, then add the
style-dependent bias (`0.02` pull toward the centre for radial, `0.3 *
min_move_distance` downward for vertical, leftward for horizontal). -/
def walk_target (T : Trig) (R : RandomStream) (g : DendriteGenerator)
    (pos : ℚ × ℚ) (k : ℕ) : (ℚ × ℚ) × ℕ :=
  let u := R.f k
  let dx := T.cos u * g.min_move_distance
  let dy := T.sin u * g.min_move_distance
  let d : ℚ × ℚ :=
    match g.branching_style with
    | BranchingStyle.Radial =>
      (dx + (g.width / 2 - pos.1) * 0.02, dy + (g.height / 2 - pos.2) * 0.02)
    | BranchingStyle.Vertical => (dx, dy + g.min_move_distance * 0.3)
    | BranchingStyle.Horizontal => (dx - g.min_move_distance * 0.3, dy)
  ((pos.1 + d.1, pos.2 + d.2), k + 1)

/-- `DendriteGenerator::random_walk`: the walk target clamped to the canvas. -/
def random_walk (T : Trig) (R : RandomStream) (g : DendriteGenerator)
    (pos : ℚ × ℚ) (k : ℕ) : (ℚ × ℚ) × ℕ :=
  let t := walk_target T R g pos k
  ((qclamp t.1.1 0 g.width, qclamp t.1.2 0 g.height), t.2)

/-- Lines 238–248 of `generate`'s inner loop body: take one walk step, then
the out-of-bounds check on the (already clamped) result, respawning from the
spawn locus when it fires. -/
def walk_step (T : Trig) (R : RandomStream) (g : DendriteGenerator)
    (pos : ℚ × ℚ) (k : ℕ) : (ℚ × ℚ) × ℕ :=
  let w := random_walk T R g pos k
  if w.1.1 < 0 ∨ w.1.1 > g.width ∨ w.1.2 < 0 ∨ w.1.2 > g.height then
    get_random_particle_position R g w.2
  else w

/-- `dist_sq.sqrt() < a` for non-negative `dist_sq`, expressed without square
roots: equivalent to `0 < a ∧ dist_sq < a * a` (see
`sqrt_lt_iff_real_sqrt`). -/
def sqrt_lt (dsq a : ℚ) : Prop :=
  0 < a ∧ dsq < a * a

instance (dsq a : ℚ) : Decidable (sqrt_lt dsq a) := by
  unfold sqrt_lt; infer_instance

/-- The mutable state threaded through `generate`'s loops: the growing point
sequence, the segment list, the spatial grid, and the RNG cursor. -/
structure GenState where
  points : List (ℚ × ℚ)
  lines : List ((ℚ × ℚ) × (ℚ × ℚ))
  grid : SpatialGrid
  k : ℕ

/-- The inner `for _ in 0..max_attempts` loop of `generate`: query the grid;
if the nearest structure point is within the attraction distance, attach
(append point and segment, insert into the grid, `break`); otherwise take one
walk step (with the respawn check) and continue with one unit of budget
spent. -/
def walkLoop (T : Trig) (R : RandomStream) (g : DendriteGenerator) :
    ℕ → ℚ × ℚ → GenState → GenState
  | 0, _, st => st
  | fuel + 1, pos, st =>
    match st.grid.find_nearest pos.1 pos.2 st.points with
    | some (nearest_idx, dist_sq) =>
      if sqrt_lt dist_sq g.attraction_distance then
        let nearest_pos := st.points.getD nearest_idx (0, 0)
        { points := st.points ++ [pos],
          lines := st.lines ++ [(nearest_pos, pos)],
          grid := st.grid.insert pos.1 pos.2 st.points.length,
          k := st.k }
      else
        let s := walk_step T R g pos st.k
        walkLoop T R g fuel s.1 { st with k := s.2 }
    | none =>
      let s := walk_step T R g pos st.k
      walkLoop T R g fuel s.1 { st with k := s.2 }

/-- The outer `for particle_idx in 0..num_particles` loop of `generate`:
spawn a particle and run its walk loop.  (The progress `println!` every 500
particles has no effect on the output and is omitted.) -/
def particleLoop (T : Trig) (R : RandomStream) (g : DendriteGenerator)
    (max_attempts : ℕ) : ℕ → GenState → GenState
  | 0, st => st
  | n + 1, st =>
    let s := get_random_particle_position R g st.k
    let st' := walkLoop T R g max_attempts s.1 { st with k := s.2 }
    particleLoop T R g max_attempts n st'

/-- The `for (idx, &(x, y)) in self.seed_points.iter().enumerate()` loop that
inserts the seed points into the fresh grid, with `i` the index of the first
remaining seed. -/
def insertSeedsAux : SpatialGrid → ℕ → List (ℚ × ℚ) → SpatialGrid
  | sg, _, [] => sg
  | sg, i, p :: ps => insertSeedsAux (sg.insert p.1 p.2 i) (i + 1) ps

/-- The state of `generate` just before the particle loop: points are the
seed points, no segments, grid of cell size `attraction_distance` holding
exactly the seed points, RNG cursor `k`. -/
def initState (g : DendriteGenerator) (k : ℕ) : GenState :=
  { points := g.seed_points,
    lines := [],
    grid := insertSeedsAux (SpatialGrid.new g.attraction_distance) 0 g.seed_points,
    k := k }

/-- `DendriteGenerator::generate(max_attempts)`: returns the final point
sequence and segment list. -/
def generate (T : Trig) (R : RandomStream) (g : DendriteGenerator) (k : ℕ)
    (max_attempts : ℕ) : List (ℚ × ℚ) × List ((ℚ × ℚ) × (ℚ × ℚ)) :=
  let st := particleLoop T R g max_attempts g.num_particles (initState g k)
  (st.points, st.lines)

/-! ### Invariant predicates -/

/-- Every point index stored anywhere in the grid is in bounds for the
current point sequence. -/
def GridInv (st : GenState) : Prop :=
  ∀ c idx, idx ∈ st.grid.grid c → idx < st.points.length

/-- The segment count always equals the number of non-seed points. -/
def LenInv (seedlen : ℕ) (st : GenState) : Prop :=
  st.points.length = seedlen + st.lines.length

/-- Segment `i` starts at a point whose index is strictly below the index
`seedlen + i` of the point that segment attached. -/
def SegInv (seedlen : ℕ) (st : GenState) : Prop :=
  ∀ i, i < st.lines.length →
    ∃ j, j < seedlen + i ∧
      st.points.getD j (0, 0) = (st.lines.getD i ((0, 0), (0, 0))).1

/-- A position lies within the canvas `[0, width] × [0, height]`. -/
def InBounds (g : DendriteGenerator) (p : ℚ × ℚ) : Prop :=
  0 ≤ p.1 ∧ p.1 ≤ g.width ∧ 0 ≤ p.2 ∧ p.2 ≤ g.height

instance (g : DendriteGenerator) (p : ℚ × ℚ) : Decidable (InBounds g p) := by
  unfold InBounds; infer_instance

/-- The model hypothesis that every `gen::<f64>()` draw lies in `[0, 1)`,
as the Rust API guarantees. -/
def RngOk (R : RandomStream) : Prop :=
  ∀ n, 0 ≤ R.f n ∧ R.f n < 1

/-- All points in the state are within the canvas. -/
def PosInv (g : DendriteGenerator) (st : GenState) : Prop :=
  ∀ p ∈ st.points, InBounds g p

/-! ### Concrete instances used to exercise the model -/

/-- A concrete trig model: constant direction `(1, 0)`. -/
def T0 : Trig := ⟨fun _ => 1, fun _ => 0⟩

/-- A concrete random stream: every unit draw is `1/2`, every edge draw 0. -/
def R0 : RandomStream := ⟨fun _ => 1 / 2, fun _ => 0⟩

/-- A small configuration on which one particle attaches immediately. -/
def gGrow : DendriteGenerator :=
  { width := 10, height := 10, num_particles := 1, attraction_distance := 10,
    min_move_distance := 5, branching_style := BranchingStyle.Vertical,
    seed_points := [(0, 0)] }

/-- A configuration with no seed points (so `find_nearest` always misses) and
a large step so walks hit the canvas edge. -/
def gEmpty : DendriteGenerator :=
  { width := 10, height := 10, num_particles := 0, attraction_distance := 1,
    min_move_distance := 5, branching_style := BranchingStyle.Vertical,
    seed_points := [] }

/-- A configuration whose explicitly supplied seed point lies far outside the
canvas. -/
def gOut : DendriteGenerator :=
  { width := 100, height := 100, num_particles := 0, attraction_distance := 5,
    min_move_distance := 2, branching_style := BranchingStyle.Radial,
    seed_points := [(200, 200)] }

/-- The spec's zero-particle scenario: radial, 100×100, one seed at the
centre, particle count 0. -/
def gZero : DendriteGenerator :=
  { width := 100, height := 100, num_particles := 0, attraction_distance := 5,
    min_move_distance := 2, branching_style := BranchingStyle.Radial,
    seed_points := [(50, 50)] }

/-! ### Faithfulness of the square-root-free attachment test -/

/-- Faithfulness of `sqrt_lt`: for non-negative `d` it coincides with the
real-number statement `Real.sqrt d < a` computed by the source. -/
theorem sqrt_lt_iff_real_sqrt (d a : ℚ) (hd : 0 ≤ d) :
    sqrt_lt d a ↔ Real.sqrt (d : ℝ) < (a : ℝ) := by
  constructor
  · rintro ⟨ha, hlt⟩
    have ha' : (0 : ℝ) < (a : ℝ) := by exact_mod_cast ha
    rw [show ((a : ℝ)) = Real.sqrt ((a : ℝ) ^ 2) by
      rw [Real.sqrt_sq ha'.le]]
    apply Real.sqrt_lt_sqrt (by exact_mod_cast hd)
    have : (d : ℝ) < (a : ℝ) * (a : ℝ) := by exact_mod_cast hlt
    nlinarith
  · intro h
    have hnn : (0 : ℝ) ≤ Real.sqrt (d : ℝ) := Real.sqrt_nonneg _
    have ha' : (0 : ℝ) < (a : ℝ) := lt_of_le_of_lt hnn h
    have hlt : (d : ℝ) < (a : ℝ) ^ 2 := by
      have := Real.lt_sq_of_sqrt_lt h
      exact this
    constructor
    · exact_mod_cast ha'
    · have : (d : ℝ) < (a : ℝ) * (a : ℝ) := by nlinarith
      exact_mod_cast this

/-! ### Helper lemmas about the spatial grid -/

/-- Membership after `insert`: an index in the updated grid was already
present or is the freshly inserted one. -/
theorem mem_insert_grid {sg : SpatialGrid} {x y : ℚ} {j : ℕ} {c : ℤ × ℤ}
    {idx : ℕ} (h : idx ∈ (sg.insert x y j).grid c) :
    idx ∈ sg.grid c ∨ idx = j := by
  unfold SpatialGrid.insert at h
  simp only at h
  split at h
  · rcases List.mem_append.1 h with h' | h'
    · exact Or.inl h'
    · exact Or.inr (List.mem_singleton.1 h')
  · exact Or.inl h

/-- Membership after the seed-insertion loop: an index was already present or
lies in the range of indices of the inserted seeds. -/
theorem mem_insertSeedsAux {c : ℤ × ℤ} {idx : ℕ} :
    ∀ (ps : List (ℚ × ℚ)) (sg : SpatialGrid) (i : ℕ),
      idx ∈ (insertSeedsAux sg i ps).grid c →
      idx ∈ sg.grid c ∨ (i ≤ idx ∧ idx < i + ps.length)
  | [], sg, i, h => Or.inl h
  | p :: ps, sg, i, h => by
    rcases mem_insertSeedsAux ps (sg.insert p.1 p.2 i) (i + 1) h with h' | h'
    · rcases mem_insert_grid h' with h'' | h''
      · exact Or.inl h''
      · exact Or.inr (by simp only [List.length_cons]; omega)
    · refine Or.inr ⟨by omega, ?_⟩
      have := h'.2
      simp only [List.length_cons]
      omega

/-- Any index a `betterOf` step can report was carried in or is the scanned
candidate. -/
theorem betterOf_carries {P : ℕ → Prop} {b : Option (ℕ × ℚ)} {idx : ℕ}
    {dsq : ℚ} (hb : ∀ i d, b = some (i, d) → P i) (hi : P idx) :
    ∀ i d, betterOf b idx dsq = some (i, d) → P i := by
  intro i d h
  rcases b with _ | ⟨i', bd⟩
  · simp only [betterOf, Option.some.injEq, Prod.mk.injEq] at h
    exact h.1 ▸ hi
  · simp only [betterOf] at h
    split at h <;> simp only [Option.some.injEq, Prod.mk.injEq] at h
    · exact h.1 ▸ hi
    · exact h.1 ▸ hb i' bd rfl

/-- Any index `scanCell` can report was carried in or belongs to the scanned
cell. -/
theorem scanCell_carries {points : List (ℚ × ℚ)} {x y : ℚ} {P : ℕ → Prop} :
    ∀ (l : List ℕ) (b : Option (ℕ × ℚ)),
      (∀ i d, b = some (i, d) → P i) → (∀ i ∈ l, P i) →
      ∀ i d, scanCell points x y b l = some (i, d) → P i
  | [], b, hb, _, i, d, h => hb i d h
  | a :: l, b, hb, hl, i, d, h => by
    have ha : P a := hl a (List.mem_cons_self a l)
    have hb' := @betterOf_carries P b a (distSq (points.getD a (0, 0)) x y) hb ha
    exact scanCell_carries l _ hb' (fun i hi => hl i (List.mem_cons_of_mem a hi)) i d h

/-- Any index `find_nearest` reports satisfies any property enjoyed by every
index stored anywhere in the grid.  In particular (with
`P = (· < points.length)`) the `points[idx]` lookups inside `find_nearest`
are in bounds whenever the grid only holds in-bounds indices. -/
theorem find_nearest_carries {sg : SpatialGrid} {x y : ℚ}
    {points : List (ℚ × ℚ)} {P : ℕ → Prop}
    (hg : ∀ c i, i ∈ sg.grid c → P i) :
    ∀ i d, sg.find_nearest x y points = some (i, d) → P i := by
  unfold SpatialGrid.find_nearest
  have main :
      ∀ (offs : List (ℤ × ℤ)) (b : Option (ℕ × ℚ)),
        (∀ i d, b = some (i, d) → P i) →
        ∀ i d,
          offs.foldl
            (fun b off =>
              scanCell points x y b
                (sg.grid ((sg.get_cell x y).1 + off.1, (sg.get_cell x y).2 + off.2)))
            b = some (i, d) → P i := by
    intro offs
    induction offs with
    | nil => intro b hb i d h; exact hb i d h
    | cons off offs ih =>
      intro b hb i d h
      exact ih _ (scanCell_carries _ _ hb (fun i hi => hg _ i hi)) i d h
  exact main neighborOffsets none (by intro i d h; cases h)

/-! ### The master structural lemma for the walk loop -/

/-- Structure of one particle's walk: either the walk exhausts its budget and
only the RNG cursor changes, or the particle attaches — the state gains
exactly one point `q` (the position at attachment time, which is the initial
position or the output of some `walk_step`) and one segment whose first
endpoint is the point at the index reported by `find_nearest` on the
*unchanged* grid and point list. -/
theorem walkLoop_out (T : Trig) (R : RandomStream) (g : DendriteGenerator) :
    ∀ (fuel : ℕ) (pos : ℚ × ℚ) (st : GenState),
      (∃ k', walkLoop T R g fuel pos st = { st with k := k' }) ∨
      (∃ q nidx d k',
        st.grid.find_nearest q.1 q.2 st.points = some (nidx, d) ∧
        sqrt_lt d g.attraction_distance ∧
        (q = pos ∨ ∃ p0 k0, q = (walk_step T R g p0 k0).1) ∧
        walkLoop T R g fuel pos st =
          { points := st.points ++ [q],
            lines := st.lines ++ [(st.points.getD nidx (0, 0), q)],
            grid := st.grid.insert q.1 q.2 st.points.length,
            k := k' })
  | 0, pos, st => Or.inl ⟨st.k, rfl⟩
  | fuel + 1, pos, st => by
    rcases hfn : st.grid.find_nearest pos.1 pos.2 st.points with _ | ⟨nidx, dsq⟩
    · -- no candidate: walk one step and recurse
      have hstep : walkLoop T R g (fuel + 1) pos st =
          walkLoop T R g fuel (walk_step T R g pos st.k).1
            { st with k := (walk_step T R g pos st.k).2 } := by
        rw [walkLoop, hfn]
      rcases walkLoop_out T R g fuel (walk_step T R g pos st.k).1
          { st with k := (walk_step T R g pos st.k).2 } with ⟨k', hk⟩ | hR'
      · exact Or.inl ⟨k', by rw [hstep, hk]⟩
      · obtain ⟨q, nidx, d, k', h1, h2, h3, h4⟩ := hR'
        refine Or.inr ⟨q, nidx, d, k', h1, h2, ?_, by rw [hstep, h4]⟩
        rcases h3 with h3 | h3
        · exact Or.inr ⟨pos, st.k, h3⟩
        · exact Or.inr h3
    · by_cases hd : sqrt_lt dsq g.attraction_distance
      · -- attach immediately
        refine Or.inr ⟨pos, nidx, dsq, st.k, hfn, hd, Or.inl rfl, ?_⟩
        rw [walkLoop, hfn]; simp [hd]
      · have hstep : walkLoop T R g (fuel + 1) pos st =
            walkLoop T R g fuel (walk_step T R g pos st.k).1
              { st with k := (walk_step T R g pos st.k).2 } := by
          rw [walkLoop, hfn]; simp [hd]
        rcases walkLoop_out T R g fuel (walk_step T R g pos st.k).1
            { st with k := (walk_step T R g pos st.k).2 } with ⟨k', hk⟩ | hR'
        · exact Or.inl ⟨k', by rw [hstep, hk]⟩
        · obtain ⟨q, nidx', d, k', h1, h2, h3, h4⟩ := hR'
          refine Or.inr ⟨q, nidx', d, k', h1, h2, ?_, by rw [hstep, h4]⟩
          rcases h3 with h3 | h3
          · exact Or.inr ⟨pos, st.k, h3⟩
          · exact Or.inr h3

/-! ### Invariants of the generation state -/

theorem initState_gridInv (g : DendriteGenerator) (k : ℕ) :
    GridInv (initState g k) := by
  intro c idx h
  rcases mem_insertSeedsAux g.seed_points (SpatialGrid.new g.attraction_distance) 0 h with
    h' | h'
  · cases h'
  · simpa [initState] using h'.2

theorem walkLoop_gridInv {T : Trig} {R : RandomStream} {g : DendriteGenerator}
    {fuel : ℕ} {pos : ℚ × ℚ} {st : GenState} (hinv : GridInv st) :
    GridInv (walkLoop T R g fuel pos st) := by
  rcases walkLoop_out T R g fuel pos st with ⟨k', hk⟩ | ⟨q, nidx, d, k', _, _, _, h4⟩
  · rw [hk]; exact hinv
  · rw [h4]
    intro c idx h
    simp only [List.length_append, List.length_singleton]
    rcases mem_insert_grid h with h' | h'
    · exact Nat.lt_succ_of_lt (hinv c idx h')
    · omega

theorem particleLoop_gridInv {T : Trig} {R : RandomStream}
    {g : DendriteGenerator} {ma : ℕ} :
    ∀ (n : ℕ) (st : GenState), GridInv st →
      GridInv (particleLoop T R g ma n st)
  | 0, _, hinv => hinv
  | n + 1, st, hinv =>
    particleLoop_gridInv n _
      (@walkLoop_gridInv T R g ma (get_random_particle_position R g st.k).1
        { st with k := (get_random_particle_position R g st.k).2 }
        (fun c idx h => hinv c idx h))

theorem walkLoop_lenInv {T : Trig} {R : RandomStream} {g : DendriteGenerator}
    {fuel : ℕ} {pos : ℚ × ℚ} {st : GenState} {seedlen : ℕ}
    (hlen : LenInv seedlen st) :
    LenInv seedlen (walkLoop T R g fuel pos st) := by
  rcases walkLoop_out T R g fuel pos st with ⟨k', hk⟩ | ⟨q, nidx, d, k', _, _, _, h4⟩
  · rw [hk]; exact hlen
  · rw [h4]
    unfold LenInv at hlen ⊢
    simp only [List.length_append, List.length_singleton]
    omega

/-- The walk loop attaches at most one particle. -/
theorem walkLoop_lines_le {T : Trig} {R : RandomStream} {g : DendriteGenerator}
    {fuel : ℕ} {pos : ℚ × ℚ} {st : GenState} :
    st.lines.length ≤ (walkLoop T R g fuel pos st).lines.length ∧
      (walkLoop T R g fuel pos st).lines.length ≤ st.lines.length + 1 := by
  rcases walkLoop_out T R g fuel pos st with ⟨k', hk⟩ | ⟨q, nidx, d, k', _, _, _, h4⟩
  · rw [hk]; exact ⟨Nat.le_refl _, Nat.le_succ _⟩
  · rw [h4]
    simp only [List.length_append, List.length_singleton]
    omega

theorem particleLoop_lenInv {T : Trig} {R : RandomStream}
    {g : DendriteGenerator} {ma : ℕ} {seedlen : ℕ} :
    ∀ (n : ℕ) (st : GenState), LenInv seedlen st →
      LenInv seedlen (particleLoop T R g ma n st)
  | 0, _, hlen => hlen
  | n + 1, st, hlen =>
    particleLoop_lenInv n _
      (@walkLoop_lenInv T R g ma (get_random_particle_position R g st.k).1
        { st with k := (get_random_particle_position R g st.k).2 } seedlen hlen)

theorem particleLoop_lines_le {T : Trig} {R : RandomStream}
    {g : DendriteGenerator} {ma : ℕ} :
    ∀ (n : ℕ) (st : GenState),
      (particleLoop T R g ma n st).lines.length ≤ st.lines.length + n
  | 0, _ => Nat.le_refl _
  | n + 1, st => by
    have h1 := @particleLoop_lines_le T R g ma n
      (walkLoop T R g ma (get_random_particle_position R g st.k).1
        { st with k := (get_random_particle_position R g st.k).2 })
    have h2 : st.lines.length ≤
        (walkLoop T R g ma (get_random_particle_position R g st.k).1
          { st with k := (get_random_particle_position R g st.k).2 }).lines.length ∧
        (walkLoop T R g ma (get_random_particle_position R g st.k).1
          { st with k := (get_random_particle_position R g st.k).2 }).lines.length ≤
          st.lines.length + 1 :=
      @walkLoop_lines_le T R g ma (get_random_particle_position R g st.k).1
        { st with k := (get_random_particle_position R g st.k).2 }
    simp only [particleLoop]
    omega

theorem walkLoop_segInv {T : Trig} {R : RandomStream} {g : DendriteGenerator}
    {fuel : ℕ} {pos : ℚ × ℚ} {st : GenState} {seedlen : ℕ}
    (hg : GridInv st) (hlen : LenInv seedlen st) (hseg : SegInv seedlen st) :
    SegInv seedlen (walkLoop T R g fuel pos st) := by
  rcases walkLoop_out T R g fuel pos st with ⟨k', hk⟩ | ⟨q, nidx, d, k', h1, _, _, h4⟩
  · rw [hk]; exact hseg
  · rw [h4]
    intro i hi
    simp only [List.length_append, List.length_singleton] at hi
    rcases Nat.lt_or_ge i st.lines.length with hlt | hge
    · obtain ⟨j, hj, hjeq⟩ := hseg i hlt
      refine ⟨j, hj, ?_⟩
      rw [List.getD_append _ _ _ _ hlt,
        List.getD_append _ _ _ _ (by unfold LenInv at hlen; omega)]
      exact hjeq
    · have hieq : i = st.lines.length := by omega
      subst hieq
      have hnidx : nidx < st.points.length :=
        find_nearest_carries (fun c i h => hg c i h) nidx d h1
      refine ⟨nidx, by unfold LenInv at hlen; omega, ?_⟩
      rw [List.getD_append _ _ _ _ hnidx,
        List.getD_append_right _ _ _ _ (Nat.le_refl _)]
      simp

theorem particleLoop_segInv {T : Trig} {R : RandomStream}
    {g : DendriteGenerator} {ma : ℕ} {seedlen : ℕ} :
    ∀ (n : ℕ) (st : GenState), GridInv st → LenInv seedlen st →
      SegInv seedlen st → SegInv seedlen (particleLoop T R g ma n st)
  | 0, _, _, _, hseg => hseg
  | n + 1, st, hg, hlen, hseg =>
    particleLoop_segInv n _
      (@walkLoop_gridInv T R g ma (get_random_particle_position R g st.k).1
        { st with k := (get_random_particle_position R g st.k).2 } hg)
      (@walkLoop_lenInv T R g ma (get_random_particle_position R g st.k).1
        { st with k := (get_random_particle_position R g st.k).2 } seedlen hlen)
      (@walkLoop_segInv T R g ma (get_random_particle_position R g st.k).1
        { st with k := (get_random_particle_position R g st.k).2 } seedlen
        hg hlen hseg)

/-! ### Canvas bounds -/

theorem qclamp_mem {v hi : ℚ} (h : 0 ≤ hi) :
    0 ≤ qclamp v 0 hi ∧ qclamp v 0 hi ≤ hi := by
  unfold qclamp
  split_ifs with h1 h2
  · exact ⟨le_refl _, h⟩
  · exact ⟨h, le_refl _⟩
  · constructor <;> linarith

theorem spawn_inBounds {R : RandomStream} {g : DendriteGenerator} {k : ℕ}
    (hw : 0 ≤ g.width) (hh : 0 ≤ g.height) (hR : RngOk R) :
    InBounds g (get_random_particle_position R g k).1 := by
  have hfk : ∀ n, 0 ≤ R.f n ∧ R.f n < 1 := hR
  have hmw : ∀ n, 0 ≤ R.f n * g.width ∧ R.f n * g.width ≤ g.width := by
    intro n
    exact ⟨mul_nonneg (hfk n).1 hw, mul_le_of_le_one_left hw (hfk n).2.le⟩
  have hmh : ∀ n, 0 ≤ R.f n * g.height ∧ R.f n * g.height ≤ g.height := by
    intro n
    exact ⟨mul_nonneg (hfk n).1 hh, mul_le_of_le_one_left hh (hfk n).2.le⟩
  cases hstyle : g.branching_style with
  | Vertical =>
    simp only [get_random_particle_position, hstyle, InBounds]
    exact ⟨(hmw _).1, (hmw _).2, le_refl _, hh⟩
  | Horizontal =>
    simp only [get_random_particle_position, hstyle, InBounds]
    exact ⟨hw, le_refl _, (hmh _).1, (hmh _).2⟩
  | Radial =>
    rcases hek : ((R.e k) : ℕ) with _ | _ | _ | m <;>
      simp only [get_random_particle_position, hstyle, hek, InBounds]
    · exact ⟨(hmw _).1, (hmw _).2, le_refl _, hh⟩
    · exact ⟨hw, le_refl _, (hmh _).1, (hmh _).2⟩
    · exact ⟨(hmw _).1, (hmw _).2, hh, le_refl _⟩
    · exact ⟨le_refl _, hw, (hmh _).1, (hmh _).2⟩

theorem random_walk_inBounds {T : Trig} {R : RandomStream}
    {g : DendriteGenerator} {pos : ℚ × ℚ} {k : ℕ}
    (hw : 0 ≤ g.width) (hh : 0 ≤ g.height) :
    InBounds g (random_walk T R g pos k).1 := by
  unfold random_walk InBounds
  exact ⟨(qclamp_mem hw).1, (qclamp_mem hw).2, (qclamp_mem hh).1, (qclamp_mem hh).2⟩

theorem walk_step_inBounds {T : Trig} {R : RandomStream}
    {g : DendriteGenerator} {pos : ℚ × ℚ} {k : ℕ}
    (hw : 0 ≤ g.width) (hh : 0 ≤ g.height) (hR : RngOk R) :
    InBounds g (walk_step T R g pos k).1 := by
  simp only [walk_step]
  split
  · exact spawn_inBounds hw hh hR
  · exact random_walk_inBounds hw hh

theorem walkLoop_posInv {T : Trig} {R : RandomStream} {g : DendriteGenerator}
    {fuel : ℕ} {pos : ℚ × ℚ} {st : GenState}
    (hw : 0 ≤ g.width) (hh : 0 ≤ g.height) (hR : RngOk R)
    (hst : PosInv g st) (hpos : InBounds g pos) :
    PosInv g (walkLoop T R g fuel pos st) := by
  rcases walkLoop_out T R g fuel pos st with ⟨k', hk⟩ | ⟨q, nidx, d, k', _, _, h3, h4⟩
  · rw [hk]; exact hst
  · rw [h4]
    intro p hp
    rcases List.mem_append.1 hp with hp | hp
    · exact hst p hp
    · have hq : p = q := List.mem_singleton.1 hp
      subst hq
      rcases h3 with h3 | ⟨p0, k0, h3⟩
      · exact h3 ▸ hpos
      · exact h3 ▸ walk_step_inBounds hw hh hR

theorem particleLoop_posInv {T : Trig} {R : RandomStream}
    {g : DendriteGenerator} {ma : ℕ}
    (hw : 0 ≤ g.width) (hh : 0 ≤ g.height) (hR : RngOk R) :
    ∀ (n : ℕ) (st : GenState), PosInv g st →
      PosInv g (particleLoop T R g ma n st)
  | 0, _, hst => hst
  | n + 1, st, hst =>
    particleLoop_posInv hw hh hR n _
      (@walkLoop_posInv T R g ma (get_random_particle_position R g st.k).1
        { st with k := (get_random_particle_position R g st.k).2 }
        hw hh hR hst (spawn_inBounds hw hh hR))

/-! ### No-respawn: the out-of-bounds test runs on the clamped position -/

/-- C2 (amended): the out-of-bounds respawn test of `generate` (lines
242–248) examines the position *after* `random_walk` has already clamped it
to the canvas, so whenever the canvas bounds are non-negative the test never
fires and a walk step never respawns: the post-walk position is always the
clamped walk result, never a fresh spawn-locus draw. -/
theorem walk_step_eq_random_walk {T : Trig} {R : RandomStream}
    {g : DendriteGenerator} {pos : ℚ × ℚ} {k : ℕ}
    (hw : 0 ≤ g.width) (hh : 0 ≤ g.height) :
    walk_step T R g pos k = random_walk T R g pos k := by
  have hb := @random_walk_inBounds T R g pos k hw hh
  obtain ⟨h1, h2, h3, h4⟩ := hb
  simp only [walk_step]
  rw [if_neg]
  push_neg
  exact ⟨by linarith, by linarith, by linarith, by linarith⟩

/-! ### `find_nearest` over a grid holding a single point -/

/-- Once the single stored point has been found, the rest of the 3×3 scan
leaves the best candidate unchanged (the tie test `dsq < best` is strict). -/
theorem singleFold_acc (px py x y : ℚ) (qcx qcy pcx pcy : ℤ) :
    ∀ offs : List (ℤ × ℤ),
      offs.foldl
        (fun b off =>
          scanCell [(px, py)] x y b
            (if (qcx + off.1, qcy + off.2) = (pcx, pcy) then [0] else []))
        (some (0, distSq (px, py) x y)) = some (0, distSq (px, py) x y)
  | [] => rfl
  | off :: offs => by
    have hstep :
        scanCell [(px, py)] x y (some (0, distSq (px, py) x y))
          (if (qcx + off.1, qcy + off.2) = (pcx, pcy) then [0] else []) =
        some (0, distSq (px, py) x y) := by
      split
      · simp [scanCell, betterOf]
      · rfl
    simp only [List.foldl_cons, hstep]
    exact singleFold_acc px py x y qcx qcy pcx pcy offs

/-- Cells other than the single point's own cell contribute nothing. -/
theorem singleFold_none (px py x y : ℚ) (qcx qcy pcx pcy : ℤ) :
    ∀ offs : List (ℤ × ℤ),
      (∀ off ∈ offs, ¬((qcx + off.1, qcy + off.2) = (pcx, pcy))) →
      offs.foldl
        (fun b off =>
          scanCell [(px, py)] x y b
            (if (qcx + off.1, qcy + off.2) = (pcx, pcy) then [0] else []))
        none = none
  | [], _ => rfl
  | off :: offs, h => by
    have hoff := h off (List.mem_cons_self off offs)
    simp only [List.foldl_cons, if_neg hoff]
    exact singleFold_none px py x y qcx qcy pcx pcy offs
      (fun o ho => h o (List.mem_cons_of_mem off ho))

/-- If some scanned offset reaches the single point's cell, the scan reports
that point with its true squared distance. -/
theorem singleFold_found (px py x y : ℚ) (qcx qcy pcx pcy : ℤ) :
    ∀ offs : List (ℤ × ℤ),
      (∃ off ∈ offs, (qcx + off.1, qcy + off.2) = (pcx, pcy)) →
      offs.foldl
        (fun b off =>
          scanCell [(px, py)] x y b
            (if (qcx + off.1, qcy + off.2) = (pcx, pcy) then [0] else []))
        none = some (0, distSq (px, py) x y)
  | [], h => absurd h (by simp)
  | off :: offs, h => by
    by_cases hoff : (qcx + off.1, qcy + off.2) = (pcx, pcy)
    · have hstep :
          scanCell [(px, py)] x y none
            (if (qcx + off.1, qcy + off.2) = (pcx, pcy) then [0] else []) =
          some (0, distSq (px, py) x y) := by
        rw [if_pos hoff]
        simp [scanCell, betterOf]
      simp only [List.foldl_cons, hstep]
      exact singleFold_acc px py x y qcx qcy pcx pcy offs
    · simp only [List.foldl_cons, if_neg hoff]
      rcases h with ⟨o, ho, hoeq⟩
      rcases List.mem_cons.1 ho with rfl | ho'
      · exact absurd hoeq hoff
      · exact singleFold_found px py x y qcx qcy pcx pcy offs ⟨o, ho', hoeq⟩

/-- The nine neighbourhood offsets reach exactly the cells at Chebyshev
distance at most one. -/
theorem exists_offset_iff (qcx qcy pcx pcy : ℤ) :
    (∃ off ∈ neighborOffsets, (qcx + off.1, qcy + off.2) = (pcx, pcy)) ↔
      |pcx - qcx| ≤ 1 ∧ |pcy - qcy| ≤ 1 := by
  constructor
  · rintro ⟨off, hmem, heq⟩
    rw [Prod.mk.injEq] at heq
    fin_cases hmem <;>
      simp only at heq <;>
      constructor <;> rw [abs_le] <;> omega
  · rintro ⟨hx, hy⟩
    rw [abs_le] at hx hy
    have hx' : pcx - qcx = -1 ∨ pcx - qcx = 0 ∨ pcx - qcx = 1 := by omega
    have hy' : pcy - qcy = -1 ∨ pcy - qcy = 0 ∨ pcy - qcy = 1 := by omega
    rcases hx' with h1 | h1 | h1 <;> rcases hy' with h2 | h2 | h2
    · exact ⟨(-1, -1), by decide, by rw [Prod.mk.injEq]; omega⟩
    · exact ⟨(-1, 0), by decide, by rw [Prod.mk.injEq]; omega⟩
    · exact ⟨(-1, 1), by decide, by rw [Prod.mk.injEq]; omega⟩
    · exact ⟨(0, -1), by decide, by rw [Prod.mk.injEq]; omega⟩
    · exact ⟨(0, 0), by decide, by rw [Prod.mk.injEq]; omega⟩
    · exact ⟨(0, 1), by decide, by rw [Prod.mk.injEq]; omega⟩
    · exact ⟨(1, -1), by decide, by rw [Prod.mk.injEq]; omega⟩
    · exact ⟨(1, 0), by decide, by rw [Prod.mk.injEq]; omega⟩
    · exact ⟨(1, 1), by decide, by rw [Prod.mk.injEq]; omega⟩

/-! ### Claim theorems -/

/-- C1 (amended): over a grid into which exactly one point `P = (px, py)` has
been inserted (at index 0), `find_nearest` returns `P`'s index together with
the true squared Euclidean distance for every query position *whose cell lies
within the 3×3 block centred on `P`'s cell*; queries farther away miss `P`
entirely (see the counterexample). -/
theorem find_nearest_singleton (cs px py x y : ℚ) (hcs : 0 < cs)
    (hx : |⌊px / cs⌋ - ⌊x / cs⌋| ≤ 1) (hy : |⌊py / cs⌋ - ⌊y / cs⌋| ≤ 1) :
    ((SpatialGrid.new cs).insert px py 0).find_nearest x y [(px, py)] =
      some (0, (px - x) * (px - x) + (py - y) * (py - y)) := by
  have hmem : ∃ off ∈ neighborOffsets,
      ((⌊x / cs⌋ : ℤ) + off.1, (⌊y / cs⌋ : ℤ) + off.2) = (⌊px / cs⌋, ⌊py / cs⌋) :=
    (exists_offset_iff _ _ _ _).2 ⟨hx, hy⟩
  exact singleFold_found px py x y ⌊x / cs⌋ ⌊y / cs⌋ ⌊px / cs⌋ ⌊py / cs⌋
    neighborOffsets hmem

/-- Witness for C1: cell size 1, the point `(3/2, 3/2)`, query `(2, 0)` one
cell away; the reported squared distance is the true one. -/
theorem find_nearest_singleton_witness :
    ((SpatialGrid.new 1).insert (3/2) (3/2) 0).find_nearest 2 0
        [((3/2 : ℚ), (3/2 : ℚ))] =
      some (0, ((3:ℚ)/2 - 2) * ((3:ℚ)/2 - 2) + ((3:ℚ)/2 - 0) * ((3:ℚ)/2 - 0)) :=
  find_nearest_singleton 1 (3/2) (3/2) 2 0 (by norm_num) (by norm_num)
    (by norm_num)

/-- Counterexample to C1 as stated: one point `(0, 0)` inserted, but the
query `(10, 10)` is outside the 3×3 cell block, so `find_nearest` returns
`none` rather than `Some` with the point's index. -/
theorem find_nearest_singleton_cex :
    ((SpatialGrid.new 1).insert 0 0 0).find_nearest 10 10 [((0 : ℚ), (0 : ℚ))] =
      none := by
  norm_num [SpatialGrid.find_nearest, SpatialGrid.insert, SpatialGrid.new,
    SpatialGrid.get_cell, neighborOffsets, scanCell, betterOf, List.foldl]

/-- Witness for C2: a concrete walk step equals the plain (clamped) random
walk — no respawn. -/
theorem walk_step_no_respawn_witness :
    walk_step T0 R0 gEmpty (3, 3) 0 = random_walk T0 R0 gEmpty (3, 3) 0 :=
  walk_step_eq_random_walk (by norm_num [gEmpty]) (by norm_num [gEmpty])

/-- Counterexample to C2 as stated: from position `(8, 5)` the unclamped walk
target `(13, 13/2)` is strictly outside the canvas (width 10), yet the
particle does not respawn — `walk_step` yields the clamped position
`(10, 13/2)`, not the spawn-locus draw `(5, 0)` the RNG would produce. -/
theorem walk_respawn_cex :
    (walk_target T0 R0 gEmpty (8, 5) 0).1.1 > gEmpty.width ∧
    walk_step T0 R0 gEmpty (8, 5) 0 = ((10, 13/2), 1) ∧
    (get_random_particle_position R0 gEmpty
        (walk_step T0 R0 gEmpty (8, 5) 0).2).1 = ((5 : ℚ), (0 : ℚ)) ∧
    ((10 : ℚ), (13 : ℚ)/2) ≠ ((5 : ℚ), (0 : ℚ)) := by
  norm_num [walk_step, random_walk, walk_target, qclamp,
    get_random_particle_position, T0, R0, gEmpty, Prod.ext_iff]

/-- C3: `generate` is a pure function of the configuration, the seeded RNG
state (stream plus cursor), and `max_attempts`; two calls with equal inputs
produce bit-identical point and segment sequences. -/
theorem generate_deterministic (T T' : Trig) (R R' : RandomStream)
    (g g' : DendriteGenerator) (k k' ma ma' : ℕ)
    (hT : T = T') (hR : R = R') (hg : g = g') (hk : k = k') (hma : ma = ma') :
    generate T R g k ma = generate T' R' g' k' ma' := by
  subst hT; subst hR; subst hg; subst hk; subst hma; rfl

/-- Witness for C3 at a concrete configuration. -/
theorem generate_deterministic_witness :
    generate T0 R0 gGrow 0 1 = generate T0 R0 gGrow 0 1 :=
  generate_deterministic T0 T0 R0 R0 gGrow gGrow 0 0 1 1 rfl rfl rfl rfl rfl

/-- C4: in every output of `generate`, segment `i`'s first coordinate pair
equals the point at some index `j` strictly below `seed_count + i`, the index
of the point that segment attached (the forest/tree invariant). -/
theorem generate_tree_invariant (T : Trig) (R : RandomStream)
    (g : DendriteGenerator) (k ma i : ℕ)
    (hi : i < (generate T R g k ma).2.length) :
    ∃ j, j < g.seed_points.length + i ∧
      (generate T R g k ma).1.getD j (0, 0) =
        ((generate T R g k ma).2.getD i ((0, 0), (0, 0))).1 := by
  have hseg := @particleLoop_segInv T R g ma g.seed_points.length
    g.num_particles (initState g k)
    (initState_gridInv g k) (by simp [LenInv, initState])
    (by intro i hi; simp [initState] at hi)
  exact hseg i hi

/-- Witness for C4: the single segment of the `gGrow` run starts at the seed
point, whose index 0 is below `1 + 0`. -/
theorem generate_tree_invariant_witness :
    ∃ j, j < gGrow.seed_points.length + 0 ∧
      (generate T0 R0 gGrow 0 1).1.getD j (0, 0) =
        ((generate T0 R0 gGrow 0 1).2.getD 0 ((0, 0), (0, 0))).1 :=
  generate_tree_invariant T0 R0 gGrow 0 1 0
    (by norm_num [generate, particleLoop, walkLoop, initState, insertSeedsAux,
      SpatialGrid.insert, SpatialGrid.new, SpatialGrid.get_cell,
      SpatialGrid.find_nearest, neighborOffsets, scanCell, betterOf, distSq,
      sqrt_lt, get_random_particle_position, walk_step, random_walk,
      walk_target, qclamp, R0, T0, gGrow, List.foldl])

/-- C5: for every configuration the point sequence returned by `generate`
has length `len(seed_points) + n` and the segment list has length `n`, for
some `n ≤ num_particles`; with zero particles the output is exactly the seed
points and no segments. -/
theorem generate_lengths (T : Trig) (R : RandomStream) (g : DendriteGenerator)
    (k ma : ℕ) :
    (∃ n, (generate T R g k ma).1.length = g.seed_points.length + n ∧
      (generate T R g k ma).2.length = n ∧ n ≤ g.num_particles) ∧
    (g.num_particles = 0 → generate T R g k ma = (g.seed_points, [])) := by
  constructor
  · refine ⟨(generate T R g k ma).2.length, ?_, rfl, ?_⟩
    · exact @particleLoop_lenInv T R g ma g.seed_points.length
        g.num_particles (initState g k) (by simp [LenInv, initState])
    · have h : (particleLoop T R g ma g.num_particles (initState g k)).lines.length ≤
          (initState g k).lines.length + g.num_particles :=
        particleLoop_lines_le g.num_particles (initState g k)
      simpa [initState] using h
  · intro h
    unfold generate
    rw [h]
    rfl

/-- Witness for C5 at the spec's zero-particle scenario: the output is
exactly the single seed point and no segments. -/
theorem generate_lengths_witness :
    generate T0 R0 gZero 0 50 = (gZero.seed_points, []) :=
  (generate_lengths T0 R0 gZero 0 50).2 rfl

/-- C6 (amended): every point returned by `generate` lies within
`[0, width] × [0, height]`, provided the canvas bounds are non-negative, the
RNG draws lie in `[0, 1)`, and — the condition the claim omits — every
supplied seed point itself lies within the canvas (seed points are returned
unchecked, see the counterexample). -/
theorem generate_in_bounds (T : Trig) (R : RandomStream)
    (g : DendriteGenerator) (k ma : ℕ) (hw : 0 ≤ g.width) (hh : 0 ≤ g.height)
    (hR : RngOk R) (hseeds : ∀ p ∈ g.seed_points, InBounds g p) :
    ∀ p ∈ (generate T R g k ma).1, InBounds g p :=
  particleLoop_posInv hw hh hR g.num_particles (initState g k)
    (fun p hp => hseeds p hp)

/-- Witness for C6: the seed point of the `gGrow` run is in bounds in the
output. -/
theorem generate_in_bounds_witness : InBounds gGrow ((0 : ℚ), (0 : ℚ)) :=
  generate_in_bounds T0 R0 gGrow 0 1 (by norm_num [gGrow]) (by norm_num [gGrow])
    (fun n => show (0 : ℚ) ≤ 1 / 2 ∧ (1 / 2 : ℚ) < 1 by norm_num)
    (by
      intro p hp
      simp only [gGrow, List.mem_singleton] at hp
      subst hp
      norm_num [InBounds, gGrow])
    ((0 : ℚ), (0 : ℚ))
    (by norm_num [generate, particleLoop, walkLoop, initState, insertSeedsAux,
      SpatialGrid.insert, SpatialGrid.new, SpatialGrid.get_cell,
      SpatialGrid.find_nearest, neighborOffsets, scanCell, betterOf, distSq,
      sqrt_lt, get_random_particle_position, walk_step, random_walk,
      walk_target, qclamp, R0, T0, gGrow, List.foldl])

/-- Counterexample to C6 as stated: a configuration with an explicitly
supplied seed point `(200, 200)` on a 100×100 canvas (which the spec does not
forbid) returns that out-of-bounds point verbatim. -/
theorem seed_out_of_bounds_cex :
    ((200 : ℚ), (200 : ℚ)) ∈ (generate T0 R0 gOut 0 1000).1 ∧
      ¬ InBounds gOut ((200 : ℚ), (200 : ℚ)) := by
  norm_num [generate, particleLoop, initState, gOut, InBounds]

/-- Counterexample to C7 as stated: construction succeeds even though the
width, height, attraction distance and minimum move distance are all `-1`;
no numeric parameter is validated. -/
theorem new_accepts_nonpositive :
    (DendriteGenerator.new (-1) (-1) 5 (-1) (-1) none "radial").isOk = true :=
  rfl

/-- C7 (amended): construction fails exactly when the branching-style string
is unrecognised; the numeric parameters are not validated at all. -/
theorem new_ok_iff_style_ok (w h : ℚ) (n : ℕ) (ad md : ℚ)
    (sp : Option (List (ℚ × ℚ))) (s : String) :
    (DendriteGenerator.new w h n ad md sp s).isOk =
      (BranchingStyle.from_str s).isOk := by
  unfold DendriteGenerator.new
  cases hfs : BranchingStyle.from_str s <;>
    simp [hfs, Except.isOk, Except.toBool]

/-- C8: a particle whose walk loop ends without recording an attachment (in
particular one that exhausts its step budget) leaves the point set, the
segment list, and the spatial grid exactly as they were when it was spawned;
only the RNG cursor advances, and no error is possible. -/
theorem exhausted_frame (T : Trig) (R : RandomStream) (g : DendriteGenerator)
    (fuel : ℕ) (pos : ℚ × ℚ) (st : GenState)
    (h : (walkLoop T R g fuel pos st).lines.length = st.lines.length) :
    (walkLoop T R g fuel pos st).points = st.points ∧
    (walkLoop T R g fuel pos st).lines = st.lines ∧
    (walkLoop T R g fuel pos st).grid = st.grid := by
  rcases walkLoop_out T R g fuel pos st with ⟨k', hk⟩ | ⟨q, nidx, d, k', _, _, _, h4⟩
  · rw [hk]; exact ⟨rfl, rfl, rfl⟩
  · rw [h4] at h
    simp only [List.length_append, List.length_singleton] at h
    omega

/-- Witness for C8: with an empty grid the particle never attaches, and after
two budget-exhausting steps the state is unchanged. -/
theorem exhausted_frame_witness :
    (walkLoop T0 R0 gEmpty 2 (5, 5) ⟨[], [], SpatialGrid.new 1, 0⟩).points =
        ([] : List (ℚ × ℚ)) ∧
    (walkLoop T0 R0 gEmpty 2 (5, 5) ⟨[], [], SpatialGrid.new 1, 0⟩).lines = [] ∧
    (walkLoop T0 R0 gEmpty 2 (5, 5) ⟨[], [], SpatialGrid.new 1, 0⟩).grid =
      SpatialGrid.new 1 :=
  exhausted_frame T0 R0 gEmpty 2 (5, 5) ⟨[], [], SpatialGrid.new 1, 0⟩
    (by norm_num [walkLoop, SpatialGrid.find_nearest, SpatialGrid.new,
      SpatialGrid.get_cell, neighborOffsets, scanCell, betterOf,
      get_random_particle_position, walk_step, random_walk, walk_target,
      qclamp, R0, T0, gEmpty, List.foldl])

/-- C9: the grid-index invariant — every point index stored in any cell is
strictly below the current point-sequence length — holds of the initial
state of `generate`, is preserved by the walk loop and the particle loop,
and under it every index `find_nearest` reports (hence every `points[idx]`
lookup it performs) is in bounds. -/
theorem grid_indices_in_bounds (T : Trig) (R : RandomStream)
    (g : DendriteGenerator) (k ma : ℕ) :
    GridInv (initState g k) ∧
    (∀ fuel pos st, GridInv st → GridInv (walkLoop T R g fuel pos st)) ∧
    (∀ n st, GridInv st → GridInv (particleLoop T R g ma n st)) ∧
    (∀ (st : GenState) (x y : ℚ) (i : ℕ) (d : ℚ), GridInv st →
      st.grid.find_nearest x y st.points = some (i, d) →
      i < st.points.length) :=
  ⟨initState_gridInv g k,
   fun _ _ _ h => walkLoop_gridInv h,
   fun n st h => particleLoop_gridInv n st h,
   fun _ _ _ i d h hfn => find_nearest_carries (fun c j hj => h c j hj) i d hfn⟩

/-- Witness for C9: the invariant holds after running a walk loop from the
initial `gGrow` state. -/
theorem grid_indices_in_bounds_witness :
    GridInv (walkLoop T0 R0 gGrow 3 (5, 0) (initState gGrow 0)) :=
  (grid_indices_in_bounds T0 R0 gGrow 0 3).2.1 3 (5, 0) (initState gGrow 0)
    (initState_gridInv gGrow 0)

/-- C10: branching-style parsing is case-insensitive — a string is accepted
exactly when its lowercase form is one of the three style names, mapping to
the corresponding style, and every other string yields the invalid-argument
error. -/
theorem from_str_case_insensitive (s : String) :
    (lowercase s = "radial" →
      BranchingStyle.from_str s = Except.ok BranchingStyle.Radial) ∧
    (lowercase s = "vertical" →
      BranchingStyle.from_str s = Except.ok BranchingStyle.Vertical) ∧
    (lowercase s = "horizontal" →
      BranchingStyle.from_str s = Except.ok BranchingStyle.Horizontal) ∧
    (lowercase s ≠ "radial" → lowercase s ≠ "vertical" →
      lowercase s ≠ "horizontal" →
      BranchingStyle.from_str s = Except.error
        "Invalid branching style. Use 'radial', 'vertical', or 'horizontal'") := by
  refine ⟨fun h => ?_, fun h => ?_, fun h => ?_, fun h1 h2 h3 => ?_⟩ <;>
    simp only [BranchingStyle.from_str]
  · rw [if_pos h]
  · rw [if_neg (by rw [h]; decide), if_pos h]
  · rw [if_neg (by rw [h]; decide), if_neg (by rw [h]; decide), if_pos h]
  · rw [if_neg h1, if_neg h2, if_neg h3]

/-- Witness for C10: `"RADIAL"` lowercases to `"radial"` and is accepted as
the radial style. -/
theorem from_str_case_insensitive_witness :
    lowercase "RADIAL" = "radial" ∧
      BranchingStyle.from_str "RADIAL" = Except.ok BranchingStyle.Radial :=
  ⟨by decide, (from_str_case_insensitive "RADIAL").1 (by decide)⟩

end Axiart
